import Mathlib

/-!
# Table Normalization & Confidence Scoring Engine — verification

Shallow embedding of the two table-extraction scripts
`extract_pdf_tables.py` and `extract_docx_tables.py`.

Modelling conventions:
* Python strings are Lean `String`s; the embedding covers the ASCII
  behaviour of the string primitives the scripts use (`str.strip`,
  `str.replace`, `float(...)`).
* Python `float` arithmetic in the confidence/header computations is
  modelled by exact rationals (`ℚ`).  For the header threshold
  (`count >= len * 0.6`) this is faithful: `0.6`'s IEEE-754 double is
  below the real `3/5`, and rounding the product `len * 0.6` to the
  nearest double can never cross the integer `count`, so the double
  comparison and the exact comparison agree for every integer `count`
  and `len`.
* `float(...)`'s accept/reject behaviour (the script only uses whether
  it raises `ValueError`) is modelled by an explicit parser over the
  CPython literal grammar: optional sign, then either a decimal number
  (digit runs with single-underscore digit separators, optional point,
  optional exponent) or a case-insensitive spelling of
  `inf`/`infinity`/`nan`.
-/

/-- Python `str.isspace`-style whitespace, ASCII fragment (the characters
`str.strip()` removes from ASCII text). -/
def pyIsSpace (c : Char) : Bool :=
  c == ' ' || c == '\t' || c == '\n' || c == '\r' || c == '\x0b' || c == '\x0c'

/-- Python `str.strip()` on a character list: drop whitespace from both ends. -/
def pyStripList (s : List Char) : List Char :=
  ((s.dropWhile pyIsSpace).reverse.dropWhile pyIsSpace).reverse

/-- Python `str.strip()` on a string. -/
def pyStrip (s : String) : String :=
  ⟨pyStripList s.data⟩

/-- The cleaning step of `is_numeric`:
`value.replace(',', '').replace('$', '').replace('%', '')` —
removing every occurrence of the three formatting characters. -/
def removeFormatting (s : List Char) : List Char :=
  s.filter (fun c => !(c == ',' || c == '$' || c == '%'))

/-- Consume the tail of a digit run: digits, or a single underscore that is
immediately followed by a digit (CPython's PEP-515 rule for `float(...)`). -/
def digitsUTail : List Char → List Char
  | [] => []
  | c :: rest =>
    if c.isDigit then digitsUTail rest
    else if c == '_' then
      match rest with
      | d :: rest2 => if d.isDigit then digitsUTail rest2 else c :: rest
      | [] => [c]
    else c :: rest

/-- Consume one mandatory digit followed by a digit run; `none` if the input
does not start with a digit. -/
def parseDigitsU : List Char → Option (List Char)
  | c :: rest => if c.isDigit then some (digitsUTail rest) else none
  | [] => none

/-- Consume an exponent part: `e`/`E`, optional sign, mandatory digit run. -/
def parseExp : List Char → Option (List Char)
  | c :: rest =>
    if c == 'e' || c == 'E' then
      match rest with
      | s :: r => if s == '+' || s == '-' then parseDigitsU r else parseDigitsU rest
      | [] => none
    else none
  | [] => none

/-- Consume an (optional) fractional digit run after the decimal point. -/
def fracTail (r : List Char) : List Char :=
  match r with
  | d :: r2 => if d.isDigit then digitsUTail r2 else r
  | [] => []

/-- Consume the mantissa of a float literal: either `digits [. [digits]]`
or `. digits`.  Returns the unconsumed remainder, or `none`. -/
def mantissa : List Char → Option (List Char)
  | [] => none
  | c :: rest =>
    if c.isDigit then
      match digitsUTail rest with
      | '.' :: r2 => some (fracTail r2)
      | r1 => some r1
    else if c == '.' then
      match rest with
      | d :: r2 => if d.isDigit then some (digitsUTail r2) else none
      | [] => none
    else none

/-- Drop one optional leading sign character. -/
def dropSign (s : List Char) : List Char :=
  match s with
  | c :: rest => if c == '+' || c == '-' then rest else s
  | [] => []

/-- Case-insensitive match against the special words `float(...)` accepts:
`inf`, `infinity`, `nan`. -/
def isInfNan (s : List Char) : Bool :=
  s.map Char.toLower == ['i', 'n', 'f'] ||
    s.map Char.toLower == ['i', 'n', 'f', 'i', 'n', 'i', 't', 'y'] ||
    s.map Char.toLower == ['n', 'a', 'n']

/-- Model of CPython `float(s)` succeeding (not raising `ValueError`) on an
already-stripped ASCII string `s`. -/
def pyFloatOk (s : List Char) : Bool :=
  if isInfNan (dropSign s) then true
  else
    match mantissa (dropSign s) with
    | none => false
    | some [] => true
    | some r => parseExp r == some []

/-- `is_numeric` from both scripts: reject empty / whitespace-only input,
strip the formatting characters `,` `$` `%`, strip whitespace, and test
whether `float(...)` accepts the remainder. -/
def is_numeric (value : String) : Bool :=
  if value.data.isEmpty || (pyStripList value.data).isEmpty then false
  else pyFloatOk (pyStripList (removeFormatting value.data))

/-! ## Data model -/

/-- A raw PDF cell, as yielded by `pdfplumber` (`None` or a string). -/
abbrev RawCell := Option String

/-- A raw row of cells. -/
abbrev RawRow := List RawCell

/-- A raw table: an ordered list of raw rows. -/
abbrev RawTable := List RawRow

/-- One PDF page as seen by the script: dimensions plus the raw tables
`page.extract_tables()` yields.  Page dimensions are floats in the
source; the claims only use their identity, so they are carried as `ℚ`. -/
structure PdfPage where
  width : ℚ
  height : ℚ
  tables : List RawTable
deriving DecidableEq, Repr

/-- A metadata value (the Python dicts hold ints and floats). -/
inductive MetaVal where
  | i : Int → MetaVal
  | q : ℚ → MetaVal
deriving DecidableEq, Repr

/-- The per-table output record both scripts emit. -/
structure CanonicalTable where
  page : Nat
  boundingBox : Option (ℚ × ℚ × ℚ × ℚ)
  rows : List (List String)
  hasHeader : Bool
  confidence : ℚ
  metadata : List (String × MetaVal)
deriving DecidableEq, Repr, Inhabited

/-! ## Heuristics shared by both scripts -/

/-- `detect_header` (PDF script): fewer than 2 rows is never a header;
otherwise the first row is a header iff its non-numeric cell count is at
least `0.6` times its length (real-valued comparison, see the module
comment for why `ℚ` is faithful here). -/
def detect_header (rows : List (List String)) : Bool :=
  if rows.length < 2 then false
  else
    match rows with
    | [] => false
    | first :: _ =>
      let nonNumericCount := (first.filter (fun cell => !is_numeric cell)).length
      decide ((nonNumericCount : ℚ) ≥ (first.length : ℚ) * (6 / 10))

/-- `detect_header_docx` (DOCX script): same heuristic as `detect_header`
(the `table` argument of the source is unused by its body). -/
def detect_header_docx (rows : List (List String)) : Bool :=
  if rows.length < 2 then false
  else
    match rows with
    | [] => false
    | first :: _ =>
      let nonNumericCount := (first.filter (fun cell => !is_numeric cell)).length
      decide ((nonNumericCount : ℚ) ≥ (first.length : ℚ) * (6 / 10))

/-- `len(set(col_counts)) == 1`: all rows have the same cell count (and
there is at least one row). -/
def consistentCols (rows : List (List String)) : Bool :=
  match rows with
  | [] => false
  | r :: rest => rest.all (fun row => row.length == r.length)

/-- Total cell count across all rows. -/
def totalCells (rows : List (List String)) : Nat :=
  (rows.map List.length).sum

/-- Count of cells that are non-empty after stripping (`if cell.strip()`). -/
def nonEmptyCells (rows : List (List String)) : Nat :=
  (rows.map (fun row => (row.filter (fun cell => !(pyStrip cell).isEmpty)).length)).sum

/-- `non_empty_cells / total_cells if total_cells > 0 else 0`. -/
def fillRate (rows : List (List String)) : ℚ :=
  if totalCells rows > 0 then (nonEmptyCells rows : ℚ) / (totalCells rows : ℚ) else 0

/-- `estimate_confidence` (PDF script): base `0.5`, `+0.3` for consistent
columns, `+0.2 × fillRate`, clamped at `1.0`.  (The `page` argument of the
source function is unused by its body.) -/
def estimate_confidence (rows : List (List String)) : ℚ :=
  if rows.isEmpty then 0
  else
    let confidence :=
      (5 / 10 : ℚ) + (if consistentCols rows then (3 / 10 : ℚ) else 0) +
        fillRate rows * (2 / 10)
    min 1 confidence

/-- `estimate_confidence_docx` (DOCX script): base `0.6`, `+0.3` for
consistent columns, `+0.1 × fillRate`, clamped at `1.0`. -/
def estimate_confidence_docx (rows : List (List String)) : ℚ :=
  if rows.isEmpty then 0
  else
    let confidence :=
      (6 / 10 : ℚ) + (if consistentCols rows then (3 / 10 : ℚ) else 0) +
        fillRate rows * (1 / 10)
    min 1 confidence

/-- `estimate_section` (DOCX script): with at most 5 tables every table is
its own "section"; otherwise tables are bucketed five per section. -/
def estimate_section (tableIdx totalTables : Nat) : Nat :=
  if totalTables ≤ 5 then tableIdx + 1 else tableIdx / 5 + 1

/-! ## PDF assembler -/

/-- Survival test for a raw PDF row:
`row and any(cell and str(cell).strip() for cell in row)` — the row is
non-empty and some cell is a non-`None`, non-empty string whose stripped
form is non-empty. -/
def surviving (row : RawRow) : Bool :=
  !row.isEmpty &&
    row.any (fun cell =>
      match cell with
      | some t => !t.isEmpty && !(pyStrip t).isEmpty
      | none => false)

/-- Cell cleaning: `str(cell).strip() if cell is not None else ""`. -/
def cleanRow (row : RawRow) : List String :=
  row.map (fun cell =>
    match cell with
    | some t => pyStrip t
    | none => "")

/-- The per-table body of the loop in `extract_tables_from_pdf`: shape
checks, row filtering, cleaning, header/confidence computation, and
assembly of the output record (bounding box is always `None`, per
`get_table_bbox`). -/
def processTable (pageNum : Nat) (w h : ℚ) (minRows minCols tableIdx : Nat)
    (table : RawTable) : Option CanonicalTable :=
  if table.isEmpty || table.length < minRows then none
  else if (table.filter surviving).length < minRows then none
  else if (match table.filter surviving with
            | r :: _ => r.length
            | [] => 0) < minCols then none
  else
    some {
      page := pageNum
      boundingBox := none
      rows := (table.filter surviving).map cleanRow
      hasHeader := detect_header ((table.filter surviving).map cleanRow)
      confidence := estimate_confidence ((table.filter surviving).map cleanRow)
      metadata := [("pageWidth", MetaVal.q w), ("pageHeight", MetaVal.q h),
        ("tableIndex", MetaVal.i tableIdx)]
    }

/-- The per-page body of `extract_tables_from_pdf`: enumerate the page's
tables and keep those that survive `processTable`. -/
def processPage (minRows minCols pageNum : Nat) (page : PdfPage) : List CanonicalTable :=
  page.tables.enum.filterMap
    (fun p => processTable pageNum page.width page.height minRows minCols p.1 p.2)

/-- Page selection of `extract_tables_from_pdf`:
`[p - 1 for p in pages if 0 <= p - 1 < len(pdf.pages)]` when a non-empty
page list is supplied (an empty list is falsy in Python and selects all
pages), otherwise `range(len(pdf.pages))`. -/
def pageIndicesOf (numPages : Nat) (pages : Option (List Int)) : List Nat :=
  match pages with
  | some ps =>
    if ps.isEmpty then List.range numPages
    else ps.filterMap
      (fun p => if 0 ≤ p - 1 ∧ p - 1 < (numPages : Int) then some (p - 1).toNat else none)
  | none => List.range numPages

/-- `extract_tables_from_pdf`: process the selected pages in order,
emitting each page's surviving tables with its 1-indexed page number. -/
def extract_tables_from_pdf (pdf : List PdfPage) (pages : Option (List Int))
    (minRows minCols : Nat) : List CanonicalTable :=
  (pageIndicesOf pdf.length pages).flatMap
    (fun idx =>
      match pdf.get? idx with
      | some page => processPage minRows minCols (idx + 1) page
      | none => [])

/-! ## DOCX assembler -/

/-- One DOCX table as seen by the script: the text of every cell
(row-major, via `table.rows` / `row.cells` / `cell.text`) plus the native
column count `len(table.columns)`. -/
structure DocxTable where
  cellTexts : List (List String)
  nativeCols : Nat
deriving DecidableEq, Repr

/-- The cell-extraction loop: `cell.text.strip()` for every cell. -/
def docxRowsData (t : DocxTable) : List (List String) :=
  t.cellTexts.map (fun row => row.map pyStrip)

/-- Survival test for a DOCX row: `any(cell.strip() for cell in row)`. -/
def docxSurviving (row : List String) : Bool :=
  row.any (fun cell => !(pyStrip cell).isEmpty)

/-- The per-table body of the loop in `extract_tables_from_docx`. -/
def processDocxTable (minRows minCols totalTables tableIdx : Nat)
    (t : DocxTable) : Option CanonicalTable :=
  if ((docxRowsData t).filter docxSurviving).length < minRows then none
  else if (match (docxRowsData t).filter docxSurviving with
            | r :: _ => r.length
            | [] => 0) < minCols then none
  else
    some {
      page := estimate_section tableIdx totalTables
      boundingBox := none
      rows := (docxRowsData t).filter docxSurviving
      hasHeader := detect_header_docx ((docxRowsData t).filter docxSurviving)
      confidence := estimate_confidence_docx ((docxRowsData t).filter docxSurviving)
      metadata := [("tableIndex", MetaVal.i tableIdx),
        ("rowCount", MetaVal.i t.cellTexts.length),
        ("colCount", MetaVal.i t.nativeCols)]
    }

/-- `extract_tables_from_docx`: enumerate the document's tables and keep
those that survive `processDocxTable`. -/
def extract_tables_from_docx (doc : List DocxTable) (minRows minCols : Nat) :
    List CanonicalTable :=
  doc.enum.filterMap (fun p => processDocxTable minRows minCols doc.length p.1 p.2)

/-! ## Spec-side grammar for the numeric-classifier claim -/

/-- Drop one optional leading minus sign (the spec regex allows only
`-?`, not `+`). -/
def dropNegSign (l : List Char) : List Char :=
  match l with
  | c :: r => if c == '-' then r else l
  | [] => []

/-- Core of the spec regex `\\d+(\\.\\d+)?`: one or more digits,
optionally followed by a point and one or more digits. -/
def decimalCore (t : List Char) : Bool :=
  !(t.takeWhile Char.isDigit).isEmpty &&
    ((t.dropWhile Char.isDigit).isEmpty ||
      ((t.dropWhile Char.isDigit).headI == '.' &&
        !(t.dropWhile Char.isDigit).tail.isEmpty &&
        (t.dropWhile Char.isDigit).tail.all Char.isDigit))

/-- The spec's plain-decimal grammar `-?\\d+(\\.\\d+)?`, written
independently of the `float(...)` parser model. -/
def decimalShape (l : List Char) : Bool :=
  decimalCore (dropNegSign l)

-- Sanity anchors for the `float(...)` model, matching CPython behaviour.
example : is_numeric "1,234.56" = true := by decide
example : is_numeric "$50" = true := by decide
example : is_numeric "12%" = true := by decide
example : is_numeric "N/A" = false := by decide
example : is_numeric "" = false := by decide
example : is_numeric "  " = false := by decide
example : is_numeric "-1.5e-3" = true := by decide
example : is_numeric "1_000" = true := by decide
example : is_numeric "1__0" = false := by decide
example : is_numeric "1._5" = false := by decide
example : is_numeric "1.5_5" = true := by decide
example : is_numeric ".5" = true := by decide
example : is_numeric "5." = true := by decide
example : is_numeric "." = false := by decide
example : is_numeric "1e" = false := by decide
example : is_numeric "1.e5" = true := by decide
example : is_numeric ".e5" = false := by decide
example : is_numeric "inf" = true := by decide
example : is_numeric "-Infinity" = true := by decide
example : is_numeric "NaN" = true := by decide
example : is_numeric "infi" = false := by decide
example : is_numeric "+-1" = false := by decide
example : is_numeric "1 2" = false := by decide


/-! ## Helper lemmas -/

/-- The real-valued header threshold over `ℚ` is equivalent to an integer
cross-multiplication. -/
theorem headerThreshold_iff (a b : Nat) :
    ((a : ℚ) ≥ (b : ℚ) * (6 / 10)) ↔ 3 * b ≤ 5 * a := by
  constructor
  · intro h
    have h5 : (3 : ℚ) * b ≤ 5 * a := by nlinarith
    exact_mod_cast h5
  · intro h
    have h1 : (3 : ℚ) * b ≤ 5 * a := by exact_mod_cast h
    nlinarith

/-- `detect_header` on a table of at least two rows, as an integer test. -/
theorem detect_header_cons (first : List String) (rest : List (List String))
    (h : rest ≠ []) :
    detect_header (first :: rest) =
      decide (3 * first.length ≤ 5 * (first.filter (fun cell => !is_numeric cell)).length) := by
  unfold detect_header
  have h2 : ¬ (first :: rest).length < 2 := by
    cases rest with
    | nil => exact absurd rfl h
    | cons b t => simp [List.length]
  rw [if_neg h2]
  exact decide_eq_decide.mpr (headerThreshold_iff _ _)

/-- `detect_header_docx` coincides with `detect_header`. -/
theorem detect_header_docx_eq (rows : List (List String)) :
    detect_header_docx rows = detect_header rows := rfl

/-- Non-empty cells never outnumber cells. -/
theorem nonEmptyCells_le_totalCells (rows : List (List String)) :
    nonEmptyCells rows ≤ totalCells rows := by
  unfold nonEmptyCells totalCells
  exact List.sum_le_sum fun r _ => List.length_filter_le _ r

/-- The fill rate is non-negative. -/
theorem fillRate_nonneg (rows : List (List String)) : 0 ≤ fillRate rows := by
  unfold fillRate
  split
  · positivity
  · exact le_refl 0

/-- The fill rate is at most one. -/
theorem fillRate_le_one (rows : List (List String)) : fillRate rows ≤ 1 := by
  unfold fillRate
  split
  · rename_i hpos
    rw [div_le_one (by exact_mod_cast hpos)]
    exact_mod_cast nonEmptyCells_le_totalCells rows
  · exact zero_le_one

/-- `consistentCols` decides "every two rows have the same cell count"
for a non-empty row list. -/
theorem consistentCols_iff (first : List String) (rest : List (List String)) :
    consistentCols (first :: rest) = true ↔
      ∀ r1 ∈ first :: rest, ∀ r2 ∈ first :: rest, r1.length = r2.length := by
  unfold consistentCols
  rw [List.all_eq_true]
  constructor
  · intro h r1 h1 r2 h2
    have len1 : r1.length = first.length := by
      rcases List.mem_cons.mp h1 with e | m
      · rw [e]
      · exact beq_iff_eq.mp (h r1 m)
    have len2 : r2.length = first.length := by
      rcases List.mem_cons.mp h2 with e | m
      · rw [e]
      · exact beq_iff_eq.mp (h r2 m)
    rw [len1, len2]
  · intro h r hr
    have := h r (List.mem_cons_of_mem _ hr) first (List.mem_cons_self _ _)
    exact beq_iff_eq.mpr this

/-! ## Claim theorems -/

/-- **C7** — The DOCX Location Assigner (`estimate_section`) returns
`i + 1` when the document has at most 5 tables and `⌊i / 5⌋ + 1`
otherwise; for 3 tables the locations are `[1, 2, 3]`, for 12 tables
indices 0–4 map to 1, 5–9 to 2, 10–11 to 3, and the location is always
at least 1. -/
theorem C7_location_assigner (i n : Nat) :
    estimate_section i n = (if n ≤ 5 then i + 1 else i / 5 + 1) ∧
    1 ≤ estimate_section i n ∧
    (List.range 3).map (fun j => estimate_section j 3) = [1, 2, 3] ∧
    (List.range 12).map (fun j => estimate_section j 12) =
      [1, 1, 1, 1, 1, 2, 2, 2, 2, 2, 3, 3] := by
  refine ⟨rfl, ?_, by decide, by decide⟩
  unfold estimate_section
  split <;> omega

/-- **C4** — Both Confidence Estimators return `0` on an empty row list
and otherwise `min 1 (base + bonus·consistency + weight·fillRate)` with
the PDF profile `(0.5, 0.3, 0.2)` and the DOCX profile `(0.6, 0.3, 0.1)`;
the consistency test holds iff every two rows have identical cell count,
and the result always lies in `[0, 1]`. -/
theorem C4_confidence_estimator (rows : List (List String)) :
    (rows = [] → estimate_confidence rows = 0 ∧ estimate_confidence_docx rows = 0) ∧
    (rows ≠ [] →
      estimate_confidence rows =
        min 1 ((5 / 10 : ℚ) + (if consistentCols rows then 3 / 10 else 0) +
          fillRate rows * (2 / 10)) ∧
      estimate_confidence_docx rows =
        min 1 ((6 / 10 : ℚ) + (if consistentCols rows then 3 / 10 else 0) +
          fillRate rows * (1 / 10)) ∧
      (consistentCols rows = true ↔
        ∀ r1 ∈ rows, ∀ r2 ∈ rows, r1.length = r2.length)) ∧
    (0 ≤ estimate_confidence rows ∧ estimate_confidence rows ≤ 1) ∧
    (0 ≤ estimate_confidence_docx rows ∧ estimate_confidence_docx rows ≤ 1) := by
  have hfr0 := fillRate_nonneg rows
  have hfr1 := fillRate_le_one rows
  refine ⟨?_, ?_, ?_, ?_⟩
  · intro h
    subst h
    exact ⟨rfl, rfl⟩
  · intro h
    cases rows with
    | nil => exact absurd rfl h
    | cons first rest =>
      refine ⟨?_, ?_, consistentCols_iff first rest⟩
      · unfold estimate_confidence
        rw [if_neg (by simp)]
      · unfold estimate_confidence_docx
        rw [if_neg (by simp)]
  · unfold estimate_confidence
    split
    · exact ⟨le_refl 0, zero_le_one⟩
    · constructor
      · apply le_min zero_le_one
        split <;> positivity
      · exact min_le_left _ _
  · unfold estimate_confidence_docx
    split
    · exact ⟨le_refl 0, zero_le_one⟩
    · constructor
      · apply le_min zero_le_one
        split <;> positivity
      · exact min_le_left _ _

/-- **C4 witness** — instantiation at a concrete two-row table. -/
theorem C4_confidence_estimator_witness :
    estimate_confidence_docx [["a", "b"], ["c", "d"]] =
      min 1 ((6 / 10 : ℚ) + (if consistentCols [["a", "b"], ["c", "d"]] then 3 / 10 else 0) +
        fillRate [["a", "b"], ["c", "d"]] * (1 / 10)) :=
  ((C4_confidence_estimator [["a", "b"], ["c", "d"]]).2.1 (by simp)).2.1

/-- **C6** — The Header Detector returns `false` on fewer than two rows
and otherwise tests whether the non-numeric cell count of the first row
is at least `0.6` times its length; `[["Name","Age","City"],["Bob","30","NYC"]]`
is a header and `[["2021","2022","2023"],["10","20","30"]]` is not
(in both the PDF and the DOCX variant). -/
theorem C6_header_detector (rows : List (List String)) :
    (rows.length < 2 → detect_header rows = false ∧ detect_header_docx rows = false) ∧
    (∀ first rest, rows = first :: rest → rest ≠ [] →
      (detect_header rows = true ↔
        ((first.filter (fun cell => !is_numeric cell)).length : ℚ) ≥
          (first.length : ℚ) * (6 / 10)) ∧
      detect_header_docx rows = detect_header rows) ∧
    detect_header [["Name", "Age", "City"], ["Bob", "30", "NYC"]] = true ∧
    detect_header [["2021", "2022", "2023"], ["10", "20", "30"]] = false ∧
    detect_header_docx [["Name", "Age", "City"], ["Bob", "30", "NYC"]] = true ∧
    detect_header_docx [["2021", "2022", "2023"], ["10", "20", "30"]] = false := by
  refine ⟨?_, ?_, ?_, ?_, ?_, ?_⟩
  · intro h
    constructor
    · unfold detect_header
      rw [if_pos h]
    · unfold detect_header_docx
      rw [if_pos h]
  · intro first rest hrows hne
    subst hrows
    refine ⟨?_, rfl⟩
    rw [detect_header_cons first rest hne, decide_eq_true_eq]
    exact (headerThreshold_iff _ _).symm
  · rw [detect_header_cons _ _ (by simp)]
    decide
  · rw [detect_header_cons _ _ (by simp)]
    decide
  · rw [detect_header_docx_eq, detect_header_cons _ _ (by simp)]
    decide
  · rw [detect_header_docx_eq, detect_header_cons _ _ (by simp)]
    decide

/-- **C6 witness** — instantiation at a concrete two-row table. -/
theorem C6_header_detector_witness :
    detect_header [["Name", "Age"], ["1", "2"]] = true ↔
      ((["Name", "Age"].filter (fun cell => !is_numeric cell)).length : ℚ) ≥
        ((["Name", "Age"] : List String).length : ℚ) * (6 / 10) :=
  ((C6_header_detector [["Name", "Age"], ["1", "2"]]).2.1 ["Name", "Age"] [["1", "2"]]
    rfl (by simp)).1

/-- Characterization of the PDF per-table step: it rejects exactly on an
empty raw table, too few surviving rows, or a too-short first surviving
row, and otherwise emits the cleaned surviving rows. -/
theorem processTable_characterize (pageNum : Nat) (w h : ℚ)
    (minRows minCols tableIdx : Nat) (table : RawTable) :
    processTable pageNum w h minRows minCols tableIdx table =
      (if table = [] ∨ (table.filter surviving).length < minRows ∨
          (table.filter surviving).headI.length < minCols then none
       else
         some {
           page := pageNum
           boundingBox := none
           rows := (table.filter surviving).map cleanRow
           hasHeader := detect_header ((table.filter surviving).map cleanRow)
           confidence := estimate_confidence ((table.filter surviving).map cleanRow)
           metadata := [("pageWidth", MetaVal.q w), ("pageHeight", MetaVal.q h),
             ("tableIndex", MetaVal.i tableIdx)] }) := by
  by_cases ht : table = []
  · subst ht
    rw [if_pos (Or.inl rfl)]
    rfl
  · have hne : table.isEmpty = false := by
      simpa [List.isEmpty_iff] using ht
    have hfle : (table.filter surviving).length ≤ table.length :=
      List.length_filter_le _ _
    unfold processTable
    rw [hne, Bool.false_or]
    by_cases hlen : table.length < minRows
    · have hfr : (table.filter surviving).length < minRows :=
        lt_of_le_of_lt hfle hlen
      rw [if_pos (decide_eq_true hlen), if_pos (Or.inr (Or.inl hfr))]
    · rw [if_neg (by simpa using hlen)]
      cases hfs : table.filter surviving with
      | nil =>
        by_cases hr0 : 0 < minRows
        · rw [if_pos (show ([] : List RawRow).length < minRows from hr0),
            if_pos (Or.inr (Or.inl (show ([] : List RawRow).length < minRows from hr0)))]
        · rw [if_neg (show ¬ ([] : List RawRow).length < minRows from hr0)]
          by_cases hc0 : 0 < minCols
          · rw [if_pos (show (0 : Nat) < minCols from hc0),
              if_pos (Or.inr (Or.inr (show (([] : List RawRow).headI).length < minCols from hc0)))]
          · rw [if_neg (show ¬ (0 : Nat) < minCols from hc0),
              if_neg (show ¬ (table = [] ∨ ([] : List RawRow).length < minRows ∨
                (([] : List RawRow).headI).length < minCols) from by
                  push_neg
                  exact ⟨ht, Nat.le_zero.mp (not_lt.mp hr0) ▸ Nat.zero_le _,
                    Nat.le_zero.mp (not_lt.mp hc0) ▸ Nat.zero_le _⟩)]
      | cons fr frs =>
        by_cases hfr : (fr :: frs).length < minRows
        · rw [if_pos hfr, if_pos (Or.inr (Or.inl hfr))]
        · rw [if_neg hfr]
          by_cases hc : fr.length < minCols
          · rw [if_pos hc,
              if_pos (Or.inr (Or.inr (show ((fr :: frs).headI).length < minCols from hc)))]
          · rw [if_neg hc,
              if_neg (show ¬ (table = [] ∨ (fr :: frs).length < minRows ∨
                ((fr :: frs).headI).length < minCols) from by
                  push_neg
                  exact ⟨ht, not_lt.mp hfr,
                    not_lt.mp (show ¬ ((fr :: frs).headI).length < minCols from hc)⟩)]

/-- Characterization of the DOCX per-table step: it rejects exactly on
too few surviving rows or a too-short first surviving row, and otherwise
emits the surviving rows unchanged. -/
theorem processDocxTable_characterize (minRows minCols totalTables tableIdx : Nat)
    (dt : DocxTable) :
    processDocxTable minRows minCols totalTables tableIdx dt =
      (if ((docxRowsData dt).filter docxSurviving).length < minRows ∨
          ((docxRowsData dt).filter docxSurviving).headI.length < minCols then none
       else
         some {
           page := estimate_section tableIdx totalTables
           boundingBox := none
           rows := (docxRowsData dt).filter docxSurviving
           hasHeader := detect_header_docx ((docxRowsData dt).filter docxSurviving)
           confidence := estimate_confidence_docx ((docxRowsData dt).filter docxSurviving)
           metadata := [("tableIndex", MetaVal.i tableIdx),
             ("rowCount", MetaVal.i dt.cellTexts.length),
             ("colCount", MetaVal.i dt.nativeCols)] }) := by
  unfold processDocxTable
  cases hfs : (docxRowsData dt).filter docxSurviving with
  | nil =>
    by_cases hr0 : 0 < minRows
    · rw [if_pos (show ([] : List (List String)).length < minRows from hr0),
        if_pos (Or.inl (show ([] : List (List String)).length < minRows from hr0))]
    · rw [if_neg (show ¬ ([] : List (List String)).length < minRows from hr0)]
      by_cases hc0 : 0 < minCols
      · rw [if_pos (show (0 : Nat) < minCols from hc0),
          if_pos (Or.inr (show (([] : List (List String)).headI).length < minCols from hc0))]
      · rw [if_neg (show ¬ (0 : Nat) < minCols from hc0),
          if_neg (show ¬ (([] : List (List String)).length < minRows ∨
            (([] : List (List String)).headI).length < minCols) from by
              push_neg
              exact ⟨Nat.le_zero.mp (not_lt.mp hr0) ▸ Nat.zero_le _,
                Nat.le_zero.mp (not_lt.mp hc0) ▸ Nat.zero_le _⟩)]
  | cons fr frs =>
    by_cases hfr : (fr :: frs).length < minRows
    · rw [if_pos hfr, if_pos (Or.inl hfr)]
    · rw [if_neg hfr]
      by_cases hc : fr.length < minCols
      · rw [if_pos hc,
          if_pos (Or.inr (show ((fr :: frs).headI).length < minCols from hc))]
      · rw [if_neg hc,
          if_neg (show ¬ ((fr :: frs).length < minRows ∨
            ((fr :: frs).headI).length < minCols) from by
              push_neg
              exact ⟨not_lt.mp hfr,
                not_lt.mp (show ¬ ((fr :: frs).headI).length < minCols from hc)⟩)]

/-- **C5 counterexample** — with `minRows = 0` and `minCols = 0`, an empty
raw PDF table is rejected by the raw-length precheck even though the
claim's rejection condition (surviving-row count below `minRows`, or first
surviving row shorter than `minCols`) is false. -/
theorem C5_row_filter_counterexample :
    processTable 1 0 0 0 0 0 ([] : RawTable) = none ∧
    ¬ ((([] : RawTable).filter surviving).length < 0 ∨
      ((([] : RawTable).filter surviving).headI).length < 0) := by
  constructor
  · rfl
  · intro h
    rcases h with h | h <;> exact absurd h (Nat.not_lt_zero _)

/-- **C5 (amended)** — The Row Filter rejects a table exactly when the
count of rows with at least one non-empty cell after trimming is below
`minRows`, or the first surviving row is shorter than `minCols`, or — for
the PDF extractor only — the raw table is empty (this extra disjunct
matters only when `minRows = 0`); an accepted table's emitted rows are
exactly the surviving rows, trimmed, `None` cells replaced by `""`, in
original order. -/
theorem C5_row_filter (pageNum : Nat) (w h : ℚ)
    (minRows minCols tableIdx totalTables : Nat) (table : RawTable) (dt : DocxTable) :
    (processTable pageNum w h minRows minCols tableIdx table = none ↔
      table = [] ∨ (table.filter surviving).length < minRows ∨
        ((table.filter surviving).headI).length < minCols) ∧
    (∀ ct, processTable pageNum w h minRows minCols tableIdx table = some ct →
      ct.rows = (table.filter surviving).map cleanRow) ∧
    (processDocxTable minRows minCols totalTables tableIdx dt = none ↔
      ((docxRowsData dt).filter docxSurviving).length < minRows ∨
        (((docxRowsData dt).filter docxSurviving).headI).length < minCols) ∧
    (∀ ct, processDocxTable minRows minCols totalTables tableIdx dt = some ct →
      ct.rows = (docxRowsData dt).filter docxSurviving) := by
  rw [processTable_characterize, processDocxTable_characterize]
  refine ⟨?_, ?_, ?_, ?_⟩
  · constructor
    · intro hnone
      by_contra hcond
      rw [if_neg hcond] at hnone
      cases hnone
    · intro hcond
      rw [if_pos hcond]
  · intro ct hct
    split at hct
    · cases hct
    · cases hct
      rfl
  · constructor
    · intro hnone
      by_contra hcond
      rw [if_neg hcond] at hnone
      cases hnone
    · intro hcond
      rw [if_pos hcond]
  · intro ct hct
    split at hct
    · cases hct
    · cases hct
      rfl

/-- **C5 witness** — instantiation at a concrete accepted DOCX table. -/
theorem C5_row_filter_witness :
    processDocxTable 2 2 1 0 ⟨[["a", "b"], ["c", "d"]], 2⟩ ≠ none := by
  rw [Ne, (C5_row_filter 1 0 0 2 2 0 1 [] ⟨[["a", "b"], ["c", "d"]], 2⟩).2.2.1]
  decide

/-- **C8** — Row-filter idempotence: a table that is already filtered
(every row has a non-empty cell, every cell is trimmed, uniform column
count at least `minCols`, row count at least `minRows`) passes both the
PDF and the DOCX filter-and-trim step unchanged. -/
theorem C8_row_filter_idempotent (pageNum : Nat) (w h : ℚ)
    (minRows minCols tableIdx totalTables k : Nat)
    (first : List String) (rest : List (List String))
    (hminR : minRows ≤ (first :: rest).length)
    (hk : minCols ≤ k)
    (huniform : ∀ r ∈ first :: rest, r.length = k)
    (htrim : ∀ r ∈ first :: rest, ∀ c ∈ r, pyStrip c = c)
    (hfull : ∀ r ∈ first :: rest, ∃ c ∈ r, c ≠ "") :
    (∃ ct, processTable pageNum w h minRows minCols tableIdx
        ((first :: rest).map (fun r => r.map some)) = some ct ∧
      ct.rows = first :: rest) ∧
    (∃ ct, processDocxTable minRows minCols totalTables tableIdx
        ⟨first :: rest, k⟩ = some ct ∧
      ct.rows = first :: rest) := by
  have hstrip_ne : ∀ r ∈ first :: rest, ∀ c ∈ r, c ≠ "" →
      (pyStrip c).isEmpty = false := by
    intro r hr c hc hne
    rw [htrim r hr c hc, Bool.eq_false_iff]
    exact fun hemp => hne ((String.isEmpty_iff c).mp hemp)
  have hc_ne : ∀ r ∈ first :: rest, ∀ c ∈ r, c ≠ "" → c.isEmpty = false := by
    intro r hr c hc hne
    rw [Bool.eq_false_iff]
    exact fun hemp => hne ((String.isEmpty_iff c).mp hemp)
  -- every already-filtered row survives the PDF test
  have hsurv : ∀ r ∈ first :: rest, surviving (r.map some) = true := by
    intro r hr
    obtain ⟨c, hc, hcne⟩ := hfull r hr
    unfold surviving
    rw [Bool.and_eq_true]
    constructor
    · rw [Bool.not_eq_true']
      rw [Bool.eq_false_iff]
      intro hemp
      rw [List.isEmpty_iff, List.map_eq_nil_iff] at hemp
      rw [hemp] at hc
      exact absurd hc (List.not_mem_nil c)
    · rw [List.any_eq_true]
      refine ⟨some c, List.mem_map_of_mem some hc, ?_⟩
      rw [Bool.and_eq_true, Bool.not_eq_true', Bool.not_eq_true']
      exact ⟨hc_ne r hr c hc hcne, hstrip_ne r hr c hc hcne⟩
  -- every already-filtered row survives the DOCX test
  have hsurvd : ∀ r ∈ first :: rest, docxSurviving r = true := by
    intro r hr
    obtain ⟨c, hc, hcne⟩ := hfull r hr
    unfold docxSurviving
    rw [List.any_eq_true]
    refine ⟨c, hc, ?_⟩
    rw [Bool.not_eq_true']
    exact hstrip_ne r hr c hc hcne
  have hfilter : ((first :: rest).map (fun r => r.map some)).filter surviving =
      (first :: rest).map (fun r => r.map some) := by
    rw [List.filter_eq_self]
    intro a ha
    obtain ⟨r, hr, rfl⟩ := List.mem_map.mp ha
    exact hsurv r hr
  have hclean : ∀ r ∈ first :: rest, cleanRow (r.map some) = r := by
    intro r hr
    unfold cleanRow
    rw [List.map_map]
    calc r.map (fun c => pyStrip c)
        = r.map id := List.map_congr_left (htrim r hr)
      _ = r := List.map_id r
  have hfilterd : (first :: rest).filter docxSurviving = first :: rest := by
    rw [List.filter_eq_self]
    exact hsurvd
  have hrowsd : docxRowsData ⟨first :: rest, k⟩ = first :: rest := by
    unfold docxRowsData
    calc (first :: rest).map (fun row => row.map pyStrip)
        = (first :: rest).map id := by
          apply List.map_congr_left
          intro r hr
          calc r.map pyStrip
              = r.map id := List.map_congr_left (htrim r hr)
            _ = r := List.map_id r
      _ = first :: rest := List.map_id _
  constructor
  · rw [processTable_characterize, hfilter]
    have hcond : ¬ ((first :: rest).map (fun r : List String => r.map some) = [] ∨
        ((first :: rest).map (fun r : List String => r.map some)).length < minRows ∨
        (((first :: rest).map (fun r : List String => r.map some)).headI).length < minCols) := by
      push_neg
      refine ⟨by simp, ?_, ?_⟩
      · rw [List.length_map]
        exact hminR
      · show minCols ≤ (first.map some).length
        rw [List.length_map, huniform first (List.mem_cons_self _ _)]
        exact hk
    rw [if_neg hcond]
    refine ⟨_, rfl, ?_⟩
    show ((first :: rest).map (fun r : List String => r.map some)).map cleanRow = first :: rest
    rw [List.map_map]
    calc (first :: rest).map (fun r : List String => cleanRow (r.map some))
        = (first :: rest).map id := List.map_congr_left hclean
      _ = first :: rest := List.map_id _
  · rw [processDocxTable_characterize, hrowsd, hfilterd]
    have hcond : ¬ ((first :: rest).length < minRows ∨
        ((first :: rest).headI).length < minCols) := by
      push_neg
      refine ⟨hminR, ?_⟩
      rw [List.headI_cons, huniform first (List.mem_cons_self _ _)]
      exact hk
    rw [if_neg hcond]
    exact ⟨_, rfl, rfl⟩

/-- **C8 witness** — instantiation at a concrete already-filtered table. -/
theorem C8_row_filter_idempotent_witness :
    ∃ ct, processDocxTable 2 2 1 0 ⟨[["a", "b"], ["c", "d"]], 2⟩ = some ct ∧
      ct.rows = [["a", "b"], ["c", "d"]] :=
  (C8_row_filter_idempotent 1 0 0 2 2 0 1 2 ["a", "b"] [["c", "d"]]
    (by decide) (by decide) (by decide) (by decide) (by decide)).2

/-- The head of a non-empty list is a member. -/
theorem headI_mem_of_ne_nil {α : Type} [Inhabited α] {l : List α} (h : l ≠ []) :
    l.headI ∈ l := by
  cases l with
  | nil => exact absurd rfl h
  | cons a t => exact List.mem_cons_self a t

/-- **C2 counterexample** — a PDF run on one fully-populated 2×2 table
emits exactly one table whose metadata contains neither a `rowCount` nor
a `colCount` entry, so PDF CanonicalTables do not carry the raw
row/column counts. -/
theorem C2_metadata_counterexample :
    (extract_tables_from_pdf [⟨10, 20, [[[some "a", some "b"], [some "c", some "d"]]]⟩]
        none 2 2).map
      (fun ct => (List.lookup "rowCount" ct.metadata, List.lookup "colCount" ct.metadata)) =
      [(none, none)] := by
  rfl

/-- **C2 (amended)** — Every emitted DOCX CanonicalTable carries metadata
with the emitting table's ordinal index and that table's raw row and
column counts as reported by the parser before filtering; every emitted
PDF CanonicalTable carries metadata with its page's width and height and
the table's ordinal index on that page, but no raw row/column counts. -/
theorem C2_metadata (pdf : List PdfPage) (pages : Option (List Int))
    (minRows minCols : Nat) (doc : List DocxTable) :
    (∀ ct ∈ extract_tables_from_pdf pdf pages minRows minCols,
      ∃ idx page tblIdx table,
        pdf.get? idx = some page ∧
        page.tables.get? tblIdx = some table ∧
        processTable (idx + 1) page.width page.height minRows minCols tblIdx table =
          some ct ∧
        ct.metadata = [("pageWidth", MetaVal.q page.width),
          ("pageHeight", MetaVal.q page.height), ("tableIndex", MetaVal.i tblIdx)]) ∧
    (∀ ct ∈ extract_tables_from_docx doc minRows minCols,
      ∃ idx t,
        doc.get? idx = some t ∧
        processDocxTable minRows minCols doc.length idx t = some ct ∧
        ct.metadata = [("tableIndex", MetaVal.i idx),
          ("rowCount", MetaVal.i t.cellTexts.length),
          ("colCount", MetaVal.i t.nativeCols)]) := by
  constructor
  · intro ct hct
    unfold extract_tables_from_pdf at hct
    rw [List.mem_flatMap] at hct
    obtain ⟨idx, _, hmem⟩ := hct
    cases hpg : pdf.get? idx with
    | none =>
      rw [hpg] at hmem
      exact absurd hmem (List.not_mem_nil ct)
    | some page =>
      rw [hpg] at hmem
      unfold processPage at hmem
      rw [List.mem_filterMap] at hmem
      obtain ⟨p, hp, hsome⟩ := hmem
      have htbl : page.tables.get? p.1 = some p.2 := by
        rw [List.get?_eq_getElem?]
        exact List.mem_enum_iff_getElem?.mp hp
      have hsome0 := hsome
      rw [processTable_characterize] at hsome
      split at hsome
      · cases hsome
      · cases hsome
        exact ⟨idx, page, p.1, p.2, hpg, htbl, hsome0, rfl⟩
  · intro ct hct
    unfold extract_tables_from_docx at hct
    rw [List.mem_filterMap] at hct
    obtain ⟨p, hp, hsome⟩ := hct
    have hdoc : doc.get? p.1 = some p.2 := by
      rw [List.get?_eq_getElem?]
      exact List.mem_enum_iff_getElem?.mp hp
    have hsome0 := hsome
    rw [processDocxTable_characterize] at hsome
    split at hsome
    · cases hsome
    · cases hsome
      exact ⟨p.1, p.2, hdoc, hsome0, rfl⟩

/-- **C2 witness** — instantiation at a concrete one-page PDF. -/
theorem C2_metadata_witness :
    List.lookup "rowCount"
      ((extract_tables_from_pdf [⟨10, 20, [[[some "a", some "b"], [some "c", some "d"]]]⟩]
          none 2 2).headI).metadata = none := by
  have hne : extract_tables_from_pdf [⟨10, 20, [[[some "a", some "b"], [some "c", some "d"]]]⟩]
      none 2 2 ≠ [] := by decide
  obtain ⟨idx, page, tblIdx, table, _, _, _, hmeta⟩ :=
    (C2_metadata [⟨10, 20, [[[some "a", some "b"], [some "c", some "d"]]]⟩] none 2 2 []).1
      _ (headI_mem_of_ne_nil hne)
  rw [hmeta]
  rfl

/-- Unfolding equation of `pageIndicesOf` for a supplied page list. -/
theorem pageIndicesOf_some (n : Nat) (ps : List Int) :
    pageIndicesOf n (some ps) =
      if ps.isEmpty then List.range n
      else ps.filterMap
        (fun p => if 0 ≤ p - 1 ∧ p - 1 < (n : Int) then some (p - 1).toNat else none) := rfl

/-- Page selection with a non-empty page list keeps exactly the 1-indexed
pages inside `[1, pageCount]`, in the order listed. -/
theorem pageIndicesOf_filter (n : Nat) (ps : List Int) (hps : ps ≠ []) :
    pageIndicesOf n (some ps) =
      (ps.filter (fun p => decide (1 ≤ p ∧ p ≤ (n : Int)))).map
        (fun p => (p - 1).toNat) := by
  rw [pageIndicesOf_some,
    if_neg (by simpa [List.isEmpty_iff] using hps)]
  clear hps
  induction ps with
  | nil => rfl
  | cons a t ih =>
    rw [List.filter_cons]
    by_cases hq : 1 ≤ a ∧ a ≤ (n : Int)
    · rw [List.filterMap_cons_some
          (f := fun p : Int =>
            if 0 ≤ p - 1 ∧ p - 1 < (n : Int) then some (p - 1).toNat else none)
          (l := t) (if_pos (by omega)),
        if_pos (decide_eq_true hq), List.map_cons, ih]
    · rw [List.filterMap_cons_none
          (f := fun p : Int =>
            if 0 ≤ p - 1 ∧ p - 1 < (n : Int) then some (p - 1).toNat else none)
          (l := t) (if_neg (by omega)),
        if_neg (fun hh => hq (of_decide_eq_true hh)), ih]

/-- The PDF extractor on a non-empty page list is a `flatMap` of the
per-page output over the in-range pages, in listed order. -/
theorem extract_pdf_eq_flatMap (pdf : List PdfPage) (ps : List Int)
    (minRows minCols : Nat) (hps : ps ≠ []) :
    extract_tables_from_pdf pdf (some ps) minRows minCols =
      (ps.filter (fun p => decide (1 ≤ p ∧ p ≤ (pdf.length : Int)))).flatMap
        (fun p =>
          match pdf.get? (p - 1).toNat with
          | some page => processPage minRows minCols ((p - 1).toNat + 1) page
          | none => []) := by
  unfold extract_tables_from_pdf
  rw [pageIndicesOf_filter pdf.length ps hps, List.flatMap_map]

/-- **C9** — For PDF sources a supplied (non-empty) page list is reduced
to its in-range entries: indices outside `[1, pageCount]` are silently
dropped (no error, no output), while in-range indices are still
processed. -/
theorem C9_page_range_filter (pdf : List PdfPage) (ps : List Int)
    (minRows minCols : Nat) (hps : ps ≠ []) :
    pageIndicesOf pdf.length (some ps) =
      (ps.filter (fun p => decide (1 ≤ p ∧ p ≤ (pdf.length : Int)))).map
        (fun p => (p - 1).toNat) ∧
    extract_tables_from_pdf pdf (some ps) minRows minCols =
      (ps.filter (fun p => decide (1 ≤ p ∧ p ≤ (pdf.length : Int)))).flatMap
        (fun p =>
          match pdf.get? (p - 1).toNat with
          | some page => processPage minRows minCols ((p - 1).toNat + 1) page
          | none => []) :=
  ⟨pageIndicesOf_filter pdf.length ps hps,
    extract_pdf_eq_flatMap pdf ps minRows minCols hps⟩

/-- **C9 witness** — instantiation at a one-page PDF with the page list
`[5, 1]`: page 5 is out of range and silently dropped, page 1 survives. -/
theorem C9_page_range_filter_witness :
    extract_tables_from_pdf [⟨1, 1, []⟩] (some [5, 1]) 2 2 =
      (([5, 1] : List Int).filter
          (fun p => decide (1 ≤ p ∧ p ≤ ((([⟨1, 1, []⟩] : List PdfPage).length : Nat) : Int)))).flatMap
        (fun p =>
          match ([⟨1, 1, []⟩] : List PdfPage).get? (p - 1).toNat with
          | some page => processPage 2 2 ((p - 1).toNat + 1) page
          | none => []) :=
  (C9_page_range_filter [⟨1, 1, []⟩] [5, 1] 2 2 (by decide)).2

/-- A `flatMap` over a replicated element is a flattened replica of its
image. -/
theorem flatMap_replicate_eq {α β : Type} (k : Nat) (a : α) (f : α → List β) :
    (List.replicate k a).flatMap f = (List.replicate k (f a)).flatten := by
  induction k with
  | zero => rfl
  | succ j ih =>
    rw [List.replicate_succ, List.flatMap_cons, List.replicate_succ,
      List.flatten_cons, ih]

/-- **C10** — The supplied page list is honoured in order and with
multiplicity: listing pages `[2, 1, 2]` emits page 2's tables, then
page 1's, then page 2's again, and a page listed `k ≥ 1` times
contributes its output `k` times. -/
theorem C10_page_order_multiplicity (pg1 pg2 : PdfPage) (pdf : List PdfPage)
    (p : Int) (k minRows minCols : Nat) :
    (extract_tables_from_pdf [pg1, pg2] (some [2, 1, 2]) minRows minCols =
      processPage minRows minCols 2 pg2 ++ processPage minRows minCols 1 pg1 ++
        processPage minRows minCols 2 pg2) ∧
    (1 ≤ k →
      extract_tables_from_pdf pdf (some (List.replicate k p)) minRows minCols =
        (List.replicate k (extract_tables_from_pdf pdf (some [p]) minRows minCols)).flatten) := by
  constructor
  · unfold extract_tables_from_pdf
    rw [show ([pg1, pg2] : List PdfPage).length = 2 from rfl]
    have h1 : pageIndicesOf 2 (some [2, 1, 2]) = [1, 0, 1] := by decide
    rw [h1]
    show processPage minRows minCols 2 pg2 ++ (processPage minRows minCols 1 pg1 ++
      (processPage minRows minCols 2 pg2 ++ [])) = _
    rw [List.append_nil, ← List.append_assoc]
  · intro hk
    have hne : List.replicate k p ≠ [] := by
      cases k with
      | zero => cases hk
      | succ m => exact List.replicate_succ_ne_nil m p
    rw [extract_pdf_eq_flatMap pdf _ minRows minCols hne, List.filter_replicate]
    by_cases hq : 1 ≤ p ∧ p ≤ (pdf.length : Int)
    · rw [if_pos (decide_eq_true hq), flatMap_replicate_eq]
      have hone : extract_tables_from_pdf pdf (some [p]) minRows minCols =
          (match pdf.get? (p - 1).toNat with
            | some page => processPage minRows minCols ((p - 1).toNat + 1) page
            | none => []) := by
        rw [extract_pdf_eq_flatMap pdf [p] minRows minCols (by simp), List.filter_cons,
          if_pos (decide_eq_true hq), List.filter_nil, List.flatMap_cons,
          List.flatMap_nil, List.append_nil]
      rw [hone]
    · rw [if_neg (fun hh => hq (of_decide_eq_true hh))]
      have hone0 : extract_tables_from_pdf pdf (some [p]) minRows minCols = [] := by
        rw [extract_pdf_eq_flatMap pdf [p] minRows minCols (by simp), List.filter_cons,
          if_neg (fun hh => hq (of_decide_eq_true hh)), List.filter_nil]
        rfl
      rw [hone0, List.flatMap_nil]
      symm
      rw [List.flatten_eq_nil_iff]
      intro l hl
      exact List.eq_of_mem_replicate hl

/-- **C10 witness** — instantiation: the page list `[1, 1]` on a one-page
PDF emits that page's tables twice. -/
theorem C10_page_order_multiplicity_witness :
    extract_tables_from_pdf [⟨1, 1, []⟩] (some (List.replicate 2 1)) 2 2 =
      (List.replicate 2 (extract_tables_from_pdf [⟨1, 1, []⟩] (some [1]) 2 2)).flatten :=
  (C10_page_order_multiplicity ⟨1, 1, []⟩ ⟨1, 1, []⟩ [⟨1, 1, []⟩] 1 2 2 2).2 (by decide)

/-! ## Character-class lemmas for the numeric classifier -/

/-- An alphabetic character is distinct from any non-alphabetic one. -/
theorem beq_false_of_isAlpha (c d : Char) (h : c.isAlpha = true)
    (hd : d.isAlpha = false) : (c == d) = false := by
  rw [beq_eq_false_iff_ne]
  intro e
  subst e
  rw [h] at hd
  cases hd

/-- Alphabetic characters are not digits. -/
theorem isDigit_false_of_isAlpha (c : Char) (h : c.isAlpha = true) :
    c.isDigit = false := by
  rw [← Bool.not_eq_true]
  intro hd
  simp only [Char.isAlpha, Char.isUpper, Char.isLower, Char.isDigit, Bool.or_eq_true,
    Bool.and_eq_true, decide_eq_true_eq, UInt32.le_def, BitVec.le_def,
    UInt32.toBitVec_ofNat, BitVec.toNat_ofNat] at h hd
  omega

/-- Alphabetic characters are not whitespace. -/
theorem pyIsSpace_false_of_isAlpha (c : Char) (h : c.isAlpha = true) :
    pyIsSpace c = false := by
  unfold pyIsSpace
  rw [beq_false_of_isAlpha c ' ' h (by decide), beq_false_of_isAlpha c '\t' h (by decide),
    beq_false_of_isAlpha c '\n' h (by decide), beq_false_of_isAlpha c '\r' h (by decide),
    beq_false_of_isAlpha c '\x0b' h (by decide), beq_false_of_isAlpha c '\x0c' h (by decide)]
  rfl

/-- The formatting-character removal keeps an all-alphabetic string. -/
theorem removeFormatting_of_isAlpha (l : List Char) (h : ∀ c ∈ l, c.isAlpha = true) :
    removeFormatting l = l := by
  unfold removeFormatting
  rw [List.filter_eq_self]
  intro c hc
  rw [beq_false_of_isAlpha c ',' (h c hc) (by decide),
    beq_false_of_isAlpha c '$' (h c hc) (by decide),
    beq_false_of_isAlpha c '%' (h c hc) (by decide)]
  rfl

/-! ## Strip lemmas -/

/-- `dropWhile` is the identity when no element satisfies the predicate. -/
theorem dropWhile_eq_self_of_not (p : Char → Bool) (l : List Char)
    (h : ∀ c ∈ l, p c = false) : l.dropWhile p = l := by
  cases l with
  | nil => rfl
  | cons a t =>
    rw [List.dropWhile_cons, if_neg (by simp [h a (List.mem_cons_self a t)])]

/-- Stripping is the identity when no character is whitespace. -/
theorem pyStripList_eq_self_of_not (l : List Char)
    (h : ∀ c ∈ l, pyIsSpace c = false) : pyStripList l = l := by
  unfold pyStripList
  rw [dropWhile_eq_self_of_not _ _ h,
    dropWhile_eq_self_of_not _ _ (fun c hc => h c (List.mem_reverse.mp hc)),
    List.reverse_reverse]

/-- `dropWhile` empties a list whose every element satisfies the predicate. -/
theorem dropWhile_eq_nil_of_all (p : Char → Bool) (l : List Char)
    (h : ∀ c ∈ l, p c = true) : l.dropWhile p = [] := by
  induction l with
  | nil => rfl
  | cons a t ih =>
    rw [List.dropWhile_cons, if_pos (h a (List.mem_cons_self a t))]
    exact ih fun c hc => h c (List.mem_cons_of_mem a hc)

/-- The head of a `dropWhile` result fails the predicate. -/
theorem dropWhile_head_false (p : Char → Bool) (l : List Char) (c : Char)
    (r : List Char) (h : l.dropWhile p = c :: r) : p c = false := by
  induction l with
  | nil => simp [List.dropWhile] at h
  | cons a t ih =>
    rw [List.dropWhile_cons] at h
    split at h
    · exact ih h
    · cases h
      simp_all

/-- An element failing the predicate survives `dropWhile`. -/
theorem mem_dropWhile_of_not (p : Char → Bool) (l : List Char) (x : Char)
    (hx : x ∈ l) (hpx : p x = false) : x ∈ l.dropWhile p := by
  have hx2 : x ∈ List.takeWhile p l ++ List.dropWhile p l := by
    rw [List.takeWhile_append_dropWhile]
    exact hx
  rcases List.mem_append.mp hx2 with hm | hm
  · have := List.mem_takeWhile_imp hm
    rw [hpx] at this
    cases this
  · exact hm

/-- `dropWhile` keeps a list containing an element that fails the
predicate non-empty. -/
theorem dropWhile_ne_nil_of_mem (p : Char → Bool) (l : List Char) (x : Char)
    (hx : x ∈ l) (hpx : p x = false) : l.dropWhile p ≠ [] := by
  induction l with
  | nil => cases hx
  | cons a t ih =>
    rw [List.dropWhile_cons]
    by_cases hpa : p a = true
    · rw [if_pos hpa]
      rcases List.mem_cons.mp hx with e | m
      · subst e
        rw [hpa] at hpx
        cases hpx
      · exact ih m
    · rw [if_neg hpa]
      exact List.cons_ne_nil a _

/-- Stripping yields the empty list exactly on all-whitespace input. -/
theorem pyStripList_eq_nil_iff (l : List Char) :
    pyStripList l = [] ↔ ∀ c ∈ l, pyIsSpace c = true := by
  constructor
  · intro h c hc
    by_contra hns
    rw [Bool.not_eq_true] at hns
    have h1 : c ∈ l.dropWhile pyIsSpace := mem_dropWhile_of_not _ _ _ hc hns
    have h2 : c ∈ (l.dropWhile pyIsSpace).reverse := List.mem_reverse.mpr h1
    have h3 := dropWhile_ne_nil_of_mem pyIsSpace _ c h2 hns
    unfold pyStripList at h
    rw [List.reverse_eq_nil_iff] at h
    exact h3 h
  · intro h
    unfold pyStripList
    rw [dropWhile_eq_nil_of_all _ _ h]
    rfl

/-! ## Parser lemmas for the numeric classifier -/

/-- A pure digit run is consumed entirely. -/
theorem digitsUTail_all (l : List Char) (h : ∀ c ∈ l, c.isDigit = true) :
    digitsUTail l = [] := by
  induction l with
  | nil => rfl
  | cons a t ih =>
    unfold digitsUTail
    rw [if_pos (h a (List.mem_cons_self a t))]
    exact ih fun c hc => h c (List.mem_cons_of_mem a hc)

/-- The digit-run consumer stops exactly at the first character that is
neither a digit nor an underscore. -/
theorem digitsUTail_append (ds rest : List Char)
    (hds : ∀ c ∈ ds, c.isDigit = true)
    (hr : rest = [] ∨ ∃ c r', rest = c :: r' ∧ c.isDigit = false ∧ (c == '_') = false) :
    digitsUTail (ds ++ rest) = rest := by
  induction ds with
  | nil =>
    rw [List.nil_append]
    rcases hr with rfl | ⟨c, r', rfl, hcd, hcu⟩
    · rfl
    · unfold digitsUTail
      rw [if_neg (by simp [hcd]), if_neg (by simp [hcu])]
  | cons d ds' ih =>
    rw [List.cons_append]
    unfold digitsUTail
    rw [if_pos (hds d (List.mem_cons_self _ _))]
    exact ih fun c hc => hds c (List.mem_cons_of_mem _ hc)

/-- Unfolding equation of `mantissa` on a non-empty list. -/
theorem mantissa_cons (c : Char) (rest : List Char) :
    mantissa (c :: rest) =
      if c.isDigit then
        match digitsUTail rest with
        | '.' :: r2 => some (fracTail r2)
        | r1 => some r1
      else if c == '.' then
        match rest with
        | d :: r2 => if d.isDigit then some (digitsUTail r2) else none
        | [] => none
      else none := rfl

/-- Unfolding equation of `dropSign` on a non-empty list. -/
theorem dropSign_cons (c : Char) (r : List Char) :
    dropSign (c :: r) = if c == '+' || c == '-' then r else c :: r := rfl

/-- Unfolding equation of `dropNegSign` on a non-empty list. -/
theorem dropNegSign_cons (c : Char) (r : List Char) :
    dropNegSign (c :: r) = if c == '-' then r else c :: r := rfl

/-- Unfolding equation of `fracTail` on a non-empty list. -/
theorem fracTail_cons (d : Char) (r2 : List Char) :
    fracTail (d :: r2) = if d.isDigit then digitsUTail r2 else d :: r2 := rfl

/-- A string matching the digits-point-digits core is fully consumed by
the float mantissa parser. -/
theorem mantissa_of_decimalCore (t : List Char) (h : decimalCore t = true) :
    mantissa t = some [] := by
  unfold decimalCore at h
  rw [Bool.and_eq_true] at h
  obtain ⟨h1, h2⟩ := h
  cases t with
  | nil => exact absurd h1 (by decide)
  | cons d t' =>
    have hd : d.isDigit = true := by
      by_contra hnd
      rw [Bool.not_eq_true] at hnd
      rw [List.takeWhile_cons, if_neg (by simp [hnd])] at h1
      exact absurd h1 (by decide)
    rw [List.dropWhile_cons, if_pos hd] at h2
    have htw : ∀ c ∈ List.takeWhile Char.isDigit t', c.isDigit = true :=
      fun c hc => List.mem_takeWhile_imp hc
    have hdu : digitsUTail t' = List.dropWhile Char.isDigit t' := by
      conv_lhs => rw [← List.takeWhile_append_dropWhile Char.isDigit t']
      apply digitsUTail_append _ _ htw
      cases hdw : List.dropWhile Char.isDigit t' with
      | nil => exact Or.inl rfl
      | cons c r' =>
        rw [hdw] at h2
        rw [List.isEmpty_cons, Bool.false_or, List.headI_cons, Bool.and_eq_true,
          Bool.and_eq_true] at h2
        obtain ⟨⟨hceq, _⟩, _⟩ := h2
        have hc : c = '.' := beq_iff_eq.mp hceq
        subst hc
        exact Or.inr ⟨'.', r', rfl, by decide, by decide⟩
    rw [mantissa_cons, if_pos hd, hdu]
    cases hdw : List.dropWhile Char.isDigit t' with
    | nil => rfl
    | cons c r' =>
      rw [hdw] at h2
      rw [List.isEmpty_cons, Bool.false_or, List.headI_cons, Bool.and_eq_true,
        Bool.and_eq_true] at h2
      obtain ⟨⟨hceq, hne⟩, hall⟩ := h2
      have hc : c = '.' := beq_iff_eq.mp hceq
      subst hc
      show some (fracTail r') = some []
      cases r' with
      | nil => exact absurd hne (by decide)
      | cons f fs' =>
        rw [List.tail_cons, List.all_cons, Bool.and_eq_true] at hall
        obtain ⟨hf, hfs⟩ := hall
        rw [fracTail_cons, if_pos hf,
          digitsUTail_all fs' (fun c hc => List.all_eq_true.mp hfs c hc)]

/-- The spec's plain decimal grammar is accepted by the float parser. -/
theorem pyFloatOk_of_decimalShape (l : List Char) (h : decimalShape l = true) :
    pyFloatOk l = true := by
  unfold decimalShape at h
  have hds : dropSign l = dropNegSign l := by
    cases l with
    | nil => rfl
    | cons c r =>
      rw [dropSign_cons, dropNegSign_cons]
      by_cases hcm : (c == '-') = true
      · rw [hcm, Bool.or_true]
      · by_cases hcp : (c == '+') = true
        · exfalso
          have hc : c = '+' := beq_iff_eq.mp hcp
          subst hc
          rw [dropNegSign_cons, if_neg (by decide)] at h
          unfold decimalCore at h
          rw [List.takeWhile_cons, if_neg (by decide), Bool.and_eq_true] at h
          exact absurd h.1 (by decide)
        · rw [Bool.eq_false_iff.mpr hcp, Bool.eq_false_iff.mpr hcm, Bool.or_self]
  have hm : mantissa (dropSign l) = some [] := by
    rw [hds]
    exact mantissa_of_decimalCore _ h
  unfold pyFloatOk
  by_cases hinf : isInfNan (dropSign l) = true
  · rw [if_pos hinf]
  · rw [if_neg hinf, hm]

/-- Cleaning and stripping fix an all-alphabetic character list. -/
theorem cleaned_eq_self_of_alpha (l : List Char) (h : ∀ c ∈ l, c.isAlpha = true) :
    pyStripList (removeFormatting l) = l := by
  rw [removeFormatting_of_isAlpha l h]
  exact pyStripList_eq_self_of_not l (fun c hc => pyIsSpace_false_of_isAlpha c (h c hc))

/-- The float parser rejects a non-empty all-alphabetic string that does
not spell an infinity or NaN. -/
theorem pyFloatOk_alpha_false (c : Char) (r : List Char)
    (h : ∀ x ∈ c :: r, x.isAlpha = true)
    (hni : isInfNan (c :: r) = false) : pyFloatOk (c :: r) = false := by
  have hc := h c (List.mem_cons_self c r)
  have hds : dropSign (c :: r) = c :: r := by
    rw [dropSign_cons, beq_false_of_isAlpha c '+' hc (by decide),
      beq_false_of_isAlpha c '-' hc (by decide), Bool.or_self, if_neg (by decide)]
  unfold pyFloatOk
  rw [hds, hni]
  rw [if_neg (by decide)]
  rw [mantissa_cons, isDigit_false_of_isAlpha c hc,
    beq_false_of_isAlpha c '.' hc (by decide)]
  rfl

/-- **C1 counterexample** — `"inf"` is an alphabetic string, yet
`is_numeric "inf"` returns `true` (CPython `float("inf")` succeeds), so
the classifier does not return false on every alphabetic string. -/
theorem C1_numeric_classifier_counterexample :
    (∀ c ∈ "inf".data, c.isAlpha = true) ∧ is_numeric "inf" = true :=
  ⟨by decide, by decide⟩

/-- **C1 (amended)** — `is_numeric` returns true iff, after removing
`,` `$` `%` and surrounding whitespace, the remainder is non-empty and is
accepted by the `float(...)` grammar (optional sign, then either a
decimal number with optional underscore digit separators, decimal point
and scientific exponent, or a case-insensitive spelling of
`inf`/`infinity`/`nan`); in particular every string matching
`-?\d+(\.\d+)?` after that cleaning yields true, every whitespace-only or
empty string yields false, and every alphabetic string yields false
except the spellings of `inf`/`infinity`/`nan`, which yield true. -/
theorem C1_numeric_classifier (s : String) :
    (is_numeric s = true ↔
      pyStripList s.data ≠ [] ∧
        pyFloatOk (pyStripList (removeFormatting s.data)) = true) ∧
    (decimalShape (pyStripList (removeFormatting s.data)) = true →
      is_numeric s = true) ∧
    ((∀ c ∈ s.data, pyIsSpace c = true) → is_numeric s = false) ∧
    ((∀ c ∈ s.data, c.isAlpha = true) →
      s.data.map Char.toLower ≠ ['i', 'n', 'f'] →
      s.data.map Char.toLower ≠ ['i', 'n', 'f', 'i', 'n', 'i', 't', 'y'] →
      s.data.map Char.toLower ≠ ['n', 'a', 'n'] →
      is_numeric s = false) ∧
    ((∀ c ∈ s.data, c.isAlpha = true) →
      (s.data.map Char.toLower = ['i', 'n', 'f'] ∨
        s.data.map Char.toLower = ['i', 'n', 'f', 'i', 'n', 'i', 't', 'y'] ∨
        s.data.map Char.toLower = ['n', 'a', 'n']) →
      is_numeric s = true) := by
  have hiff : is_numeric s = true ↔
      pyStripList s.data ≠ [] ∧
        pyFloatOk (pyStripList (removeFormatting s.data)) = true := by
    unfold is_numeric
    by_cases hcond : (s.data.isEmpty || (pyStripList s.data).isEmpty) = true
    · rw [if_pos hcond]
      constructor
      · intro hf
        cases hf
      · rintro ⟨h1, _⟩
        exfalso
        rw [Bool.or_eq_true] at hcond
        rcases hcond with hcond | hcond
        · rw [List.isEmpty_iff] at hcond
          apply h1
          rw [hcond]
          rfl
        · rw [List.isEmpty_iff] at hcond
          exact h1 hcond
    · rw [if_neg hcond]
      constructor
      · intro h2
        refine ⟨?_, h2⟩
        intro hnil
        apply hcond
        rw [Bool.or_eq_true]
        right
        rw [List.isEmpty_iff]
        exact hnil
      · rintro ⟨_, h2⟩
        exact h2
  refine ⟨hiff, ?_, ?_, ?_, ?_⟩
  · -- the spec's plain decimal grammar implies true
    intro hsh
    rw [hiff]
    refine ⟨?_, pyFloatOk_of_decimalShape _ hsh⟩
    intro hnil
    rw [pyStripList_eq_nil_iff] at hnil
    have hclnil : pyStripList (removeFormatting s.data) = [] := by
      rw [pyStripList_eq_nil_iff]
      intro c hc
      have hc2 : c ∈ s.data := by
        unfold removeFormatting at hc
        exact List.mem_of_mem_filter hc
      exact hnil c hc2
    rw [hclnil] at hsh
    exact absurd hsh (by decide)
  · -- whitespace-only strings are rejected
    intro hsp
    unfold is_numeric
    have hnil : pyStripList s.data = [] := (pyStripList_eq_nil_iff s.data).mpr hsp
    rw [hnil, if_pos (by rw [List.isEmpty_nil, Bool.or_true])]
  · -- alphabetic strings that do not spell inf/infinity/nan are rejected
    intro hal hn1 hn2 hn3
    cases hd : s.data with
    | nil =>
      unfold is_numeric
      rw [hd]
      rfl
    | cons c r =>
      have hal' : ∀ x ∈ c :: r, x.isAlpha = true := by
        rw [← hd]
        exact hal
      have hni : isInfNan (c :: r) = false := by
        unfold isInfNan
        rw [beq_eq_false_iff_ne.mpr (by rw [← hd]; exact hn1),
          beq_eq_false_iff_ne.mpr (by rw [← hd]; exact hn2),
          beq_eq_false_iff_ne.mpr (by rw [← hd]; exact hn3)]
        rfl
      have hstrip : pyStripList (c :: r) = c :: r :=
        pyStripList_eq_self_of_not _ (fun x hx => pyIsSpace_false_of_isAlpha x (hal' x hx))
      unfold is_numeric
      rw [hd, hstrip, if_neg (by simp)]
      rw [cleaned_eq_self_of_alpha _ hal']
      exact pyFloatOk_alpha_false c r hal' hni
  · -- spellings of inf/infinity/nan are accepted
    intro hal hw
    cases hd : s.data with
    | nil =>
      exfalso
      rw [hd] at hw
      rcases hw with hw | hw | hw <;> exact absurd hw (by decide)
    | cons c r =>
      have hal' : ∀ x ∈ c :: r, x.isAlpha = true := by
        rw [← hd]
        exact hal
      have hstrip : pyStripList (c :: r) = c :: r :=
        pyStripList_eq_self_of_not _ (fun x hx => pyIsSpace_false_of_isAlpha x (hal' x hx))
      unfold is_numeric
      rw [hd, hstrip, if_neg (by simp)]
      rw [cleaned_eq_self_of_alpha _ hal']
      have hcx := hal' c (List.mem_cons_self c r)
      have hds : dropSign (c :: r) = c :: r := by
        rw [dropSign_cons, beq_false_of_isAlpha c '+' hcx (by decide),
          beq_false_of_isAlpha c '-' hcx (by decide), Bool.or_self, if_neg (by decide)]
      have hinf : isInfNan (c :: r) = true := by
        unfold isInfNan
        rw [hd] at hw
        rcases hw with hw | hw | hw
        · rw [beq_iff_eq.mpr hw, Bool.true_or, Bool.true_or]
        · rw [beq_iff_eq.mpr hw, Bool.or_true, Bool.true_or]
        · rw [beq_iff_eq.mpr hw, Bool.or_true]
      unfold pyFloatOk
      rw [hds, hinf, if_pos rfl]

/-- **C1 witness** — instantiation at `"1,234.56"`, which matches the
plain decimal grammar after cleaning. -/
theorem C1_numeric_classifier_witness : is_numeric "1,234.56" = true :=
  (C1_numeric_classifier "1,234.56").2.1 (by decide)
